import Mathlib

/-!
Verification of the trading-core of `ai-tradingbot` against its design
specification.  The Python sources are shallowly embedded: prices and
indicator values become rationals, pandas series become lists, fallible
paths (Python exceptions caught by the local `try/except` handlers)
become `Option`/error results, and mutation of `self.positions` becomes
explicit state passing.
-/

namespace TradingBot

/-! ## Basic helpers -/

/-- Python `int(x)` conversion on a float/rational: truncation toward zero. -/
def pyInt (q : ℚ) : ℤ := if 0 ≤ q then ⌊q⌋ else ⌈q⌉

/-! ## Position manager (`src/utils/position_manager.py`) -/

/-- Value of the `sizing_method` field of a sizing result
(the strings "ATR-based" / "Limit-based" in the source). -/
inductive SizingMethod
  | atrBased
  | limitBased
deriving DecidableEq, Repr

/-- Result dictionary of `PositionManager.calculate_atr_position_size`
(lines 58-67). -/
structure SizingResult where
  shares : ℤ
  position_value : ℚ
  position_pct : ℚ
  sizing_method : SizingMethod
  atr_position_pct : ℚ
  limit_position_pct : ℚ
  atr_value : ℚ
  current_price : ℚ
deriving DecidableEq, Repr

/-- Embedding of `PositionManager.calculate_atr_position_size`
(position_manager.py lines 21-72).  A zero `current_price` or zero
`portfolio_value` raises `ZeroDivisionError` in the source (lines 37-38,
55, 61); the local `except` handler returns the empty dict, modelled as
`none`. -/
def calculate_atr_position_size (portfolio_value current_price atr_value
    purchase_limit_pct : ℚ) : Option SizingResult :=
  if current_price = 0 ∨ portfolio_value = 0 then none
  else
    let atr_position_value := portfolio_value * (atr_value / current_price)
    let atr_position_pct := atr_position_value / portfolio_value * 100
    let limit_position_value := portfolio_value * (purchase_limit_pct / 100)
    let limit_position_pct := purchase_limit_pct
    let final_position_value :=
      if atr_position_pct ≤ limit_position_pct then atr_position_value
      else limit_position_value
    let sizing_method :=
      if atr_position_pct ≤ limit_position_pct then SizingMethod.atrBased
      else SizingMethod.limitBased
    let shares := pyInt (final_position_value / current_price)
    let actual_position_value := (shares : ℚ) * current_price
    some { shares := shares
           position_value := actual_position_value
           position_pct := actual_position_value / portfolio_value * 100
           sizing_method := sizing_method
           atr_position_pct := atr_position_pct
           limit_position_pct := limit_position_pct
           atr_value := atr_value
           current_price := current_price }

/-- Result dictionary of `PositionManager.calculate_averaging_down_size`
(lines 199-206). -/
structure AvgSizingResult where
  shares : ℤ
  position_value : ℚ
  position_pct : ℚ
  averaging_level : String
  confidence_boost : ℚ
  current_price : ℚ
deriving DecidableEq, Repr

/-- Embedding of `PositionManager.calculate_averaging_down_size`
(position_manager.py lines 163-211).  The `atr_value` argument is unused
in the source body.  Zero `current_price` or `portfolio_value` raises in
the source (lines 196, 202) and the handler returns `{}`, modelled as
`none`. -/
def calculate_averaging_down_size (portfolio_value current_price
    _atr_value : ℚ) (averaging_level : String) : Option AvgSizingResult :=
  if current_price = 0 ∨ portfolio_value = 0 then none
  else
    let bp : ℚ × ℚ :=
      if averaging_level = "2x ATR" then (1/2, 1/10)
      else if averaging_level = "3x ATR" then (3/4, 1/5)
      else if averaging_level = "4x ATR" then (1, 3/10)
      else (1/2, 1/10)
    let position_value := portfolio_value * (bp.1 / 100)
    let shares := pyInt (position_value / current_price)
    let actual_position_value := (shares : ℚ) * current_price
    some { shares := shares
           position_value := actual_position_value
           position_pct := actual_position_value / portfolio_value * 100
           averaging_level := averaging_level
           confidence_boost := bp.2
           current_price := current_price }

/-- Tracked position record created by `PositionManager.add_position`
(lines 265-274); only the fields relevant to the verified queries are
kept (the queries bind but never read the record). -/
structure Position where
  entry_price : ℚ
  shares : ℤ
  position_value : ℚ
  entry_confidence : ℚ
deriving DecidableEq, Repr

/-- State of a `PositionManager` instance: the `self.positions` map,
modelled as an association list keyed by ticker. -/
structure PMState where
  positions : List (String × Position)
deriving DecidableEq, Repr

/-- Embedding of `PositionManager.should_average_down`
(position_manager.py lines 74-161).  The method never writes
`self.positions`; state passing makes that explicit.  A zero
`entry_price` raises `ZeroDivisionError` at line 96 before any threshold
is checked; the handler (lines 158-161) returns an error triple.  The
four threshold checks build `averaging_levels` (here pairs of level
label and confidence; the unused threshold fields of the source dicts
are elided) and `max(..., key=confidence)` picks the first element of
maximal confidence, modelled by `foldl` with a strict comparison. -/
def should_average_down (st : PMState) (ticker : String)
    (current_price entry_price atr_value pct_below_previous_buy : ℚ) :
    (Bool × ℚ × String) × PMState :=
  match st.positions.lookup ticker with
  | none => ((false, 0, "No existing position"), st)
  | some _ =>
    if entry_price = 0 then ((false, 0, "Error"), st)
    else
      let price_drop := entry_price - current_price
      let levels : List (String × ℚ) :=
        (if price_drop ≥ atr_value * 2 then [( "2x ATR", 7/10)] else []) ++
        (if price_drop ≥ atr_value * 3 then [( "3x ATR", 4/5)] else []) ++
        (if price_drop ≥ atr_value * 4 then [( "4x ATR", 9/10)] else []) ++
        (if price_drop ≥ entry_price * pct_below_previous_buy then
          [( "Percentage", 3/5)] else [])
      match levels with
      | [] => ((false, 0, "no averaging levels reached"), st)
      | l :: ls =>
        let best := ls.foldl (fun b x => if x.2 > b.2 then x else b) l
        ((true, best.2, "threshold reached"), st)

/-- Embedding of `PositionManager.should_take_partial_profit`
(position_manager.py lines 213-259).  A zero `entry_price` raises at
line 238 (inside the 50-percent-above branch only); the handler returns
an error triple. -/
def should_take_partial_profit (st : PMState) (ticker : String)
    (current_price entry_price sma_200 : ℚ) :
    (Bool × ℚ × String) × PMState :=
  match st.positions.lookup ticker with
  | none => ((false, 0, "No existing position"), st)
  | some _ =>
    if current_price ≥ sma_200 * (3/2) then
      if entry_price = 0 then ((false, 0, "Error"), st)
      else
        let profit_pct := (current_price - entry_price) / entry_price * 100
        let confidence : ℚ :=
          if profit_pct ≥ 100 then 19/20
          else if profit_pct ≥ 75 then 9/10
          else if profit_pct ≥ 50 then 17/20
          else 4/5
        ((true, confidence, "50 pct or more above 200 SMA"), st)
    else ((false, 0, "not yet 50 pct above 200 SMA"), st)

/-! ## Indicator engine (`src/utils/technical_indicators.py`)

Pandas series over the bar index become lists; a pandas `NaN` entry (the
"no value" marker for insufficient warm-up) becomes `none` in a
`List (Option ℚ)`. -/

/-- Embedding of `TechnicalIndicators.calculate_sma` (lines 19-21):
`data.close.rolling(window=period).mean()`.  Entry `i` is defined once
the window is full (`period ≤ i + 1`) and is the mean of the trailing
`period` closes; earlier entries are `NaN`, i.e. `none`. -/
def calculate_sma (closes : List ℚ) (period : ℕ) : List (Option ℚ) :=
  (List.range closes.length).map (fun i =>
    if period ≤ i + 1 then
      some (((closes.drop (i + 1 - period)).take period).sum / period)
    else none)

/-- One OHLC bar (the columns of the price DataFrame used by the
indicator engine). -/
structure Bar where
  high : ℚ
  low : ℚ
  close : ℚ
deriving DecidableEq, Repr

/-- True-range terms for all bars after the first:
`max(high-low, abs(high-prevClose), abs(low-prevClose))`
(technical_indicators.py lines 34-38). -/
def trAux (prev : Bar) : List Bar → List ℚ
  | [] => []
  | b :: rest =>
    max (b.high - b.low) (max |b.high - prev.close| |b.low - prev.close|) ::
      trAux b rest

/-- True-range series.  For the first bar `close.shift()` is `NaN` and the
row-wise `max` skips it, leaving `high - low`. -/
def trueRangeList : List Bar → List ℚ
  | [] => []
  | b :: rest => (b.high - b.low) :: trAux b rest

/-- Pandas `ewm(alpha=a, adjust=False).mean()` recursion after the seed:
`y_t = x_t * a + y_(t-1) * (1 - a)`. -/
def ewmNoAdjAux (a : ℚ) (prev : ℚ) : List ℚ → List ℚ
  | [] => []
  | x :: xs => (x * a + prev * (1 - a)) :: ewmNoAdjAux a (x * a + prev * (1 - a)) xs

/-- Pandas `ewm(alpha=a, adjust=False).mean()`: seeded with the first
element, then the plain recursion. -/
def ewmNoAdj (a : ℚ) : List ℚ → List ℚ
  | [] => []
  | x :: xs => x :: ewmNoAdjAux a x xs

/-- Embedding of `TechnicalIndicators.calculate_atr`
(technical_indicators.py lines 27-48).  When the input history is
shorter than `period` the source returns `pd.Series([0] * len(data))` —
a series of the number zero, not of `NaN` markers (line 31).  Otherwise
the true range is Wilder-smoothed with `ewm(alpha=1/period,
adjust=False)` and every entry is defined. -/
def calculate_atr (bars : List Bar) (period : ℕ) : List (Option ℚ) :=
  if bars.length < period then List.replicate bars.length (some 0)
  else (ewmNoAdj (1 / period) (trueRangeList bars)).map some

/-- Pandas `ewm(span=period).mean()` with the default `adjust=True`:
running weighted mean with weights `(1-a)^i`.  The accumulators carry
the weighted numerator and the weight sum of the elements seen so far. -/
def ewmAdjAux (om : ℚ) (num den : ℚ) : List ℚ → List ℚ
  | [] => []
  | x :: xs =>
    ((x + om * num) / (1 + om * den)) :: ewmAdjAux om (x + om * num) (1 + om * den) xs

/-- Embedding of `TechnicalIndicators.calculate_ema` (lines 23-25):
`data.close.ewm(span=period).mean()`.  Pandas derives
`alpha = 2/(span+1)` and, with the default `adjust=True`, returns the
running `(1-alpha)^i`-weighted mean — not the plain recursion. -/
def calculate_ema (closes : List ℚ) (period : ℕ) : List ℚ :=
  ewmAdjAux (1 - 2 / ((period : ℚ) + 1)) 0 0 closes

/-- Modelled from the spec: the recursion the specification describes
for the exponential moving average — `ema[t] = close[t]*alpha +
ema[t-1]*(1-alpha)` with `alpha = 2/(period+1)`, seeded with the first
bar.  Stated only to be compared against `calculate_ema`. -/
def emaSpecRecursion (closes : List ℚ) (period : ℕ) : List ℚ :=
  match closes with
  | [] => []
  | c :: cs =>
    let a : ℚ := 2 / ((period : ℚ) + 1)
    cs.scanl (fun prev x => x * a + prev * (1 - a)) c

/-- Closed form of the pandas adjusted exponential weighted mean at
index `t`: the `(1-a)^i`-weighted average of the closes up to `t`. -/
def emaAdjustedSpec (a : ℚ) (closes : List ℚ) (t : ℕ) : ℚ :=
  (∑ i in Finset.range (t + 1), (1 - a) ^ i * closes.getD (t - i) 0) /
    (∑ i in Finset.range (t + 1), (1 - a) ^ i)

/-! ## Rule evaluator (`TechnicalIndicators.evaluate_trading_rule`,
technical_indicators.py lines 198-448)

The source dispatches on substrings of the free-text rule name
(`sma_cross`/`ema_cross`/`atr`/`nymo`, then the embedded period digits);
`RuleKind` records the outcome of that dispatch.  Indicator series are
looked up by string key with default `pd.Series([0])`; `IndKey` records
the keys in use. -/

/-- Outcome of the rule-name substring dispatch in
`evaluate_trading_rule` (the `elif` chain at lines 231, 262, 287, 300,
335, 366, 392, 409; names matching a family but none of its period
digits fall into the family's `Other` case, names matching no family
run no branch at all). -/
inductive RuleKind
  | smaCross21
  | smaCross50
  | smaCross200
  | smaCrossOther
  | emaCross10
  | emaCross20
  | emaCross40
  | emaCrossOther
  | atrStop
  | nymoRule
  | otherRule
deriving DecidableEq, Repr

/-- Keys of the indicator dictionary built by
`calculate_all_indicators` and read back in `evaluate_trading_rule`. -/
inductive IndKey
  | sma (n : ℕ)
  | ema (n : ℕ)
  | atrTrailingStop
  | nymo
deriving DecidableEq, Repr

/-- The `indicators` dict handed to `evaluate_trading_rule`:
the `data` close column (`none` models a missing `data` key, whose
lookup at line 214 raises `KeyError`), and the named series (`none`
models an absent key, which `.get` replaces by `pd.Series([0])`). -/
structure IndicatorSet where
  data : Option (List ℚ)
  series : IndKey → Option (List ℚ)

/-- Rule record fields read by `evaluate_trading_rule` (lines 201-207,
411): the substring-dispatch outcome, `priority` (default 5), `length`
(default 21), the `previous_days` key when present, and
`nymo_threshold` (default -50). -/
structure Rule where
  kind : RuleKind
  priority : ℤ
  length : ℕ
  previousDays : Option ℕ
  nymoThreshold : ℚ

/-- Dictionary lookup `indicators.get(key, pd.Series([0]))`. -/
def indGet (s : IndKey → Option (List ℚ)) (k : IndKey) : List ℚ :=
  (s k).getD [0]

/-- Pandas `iloc[-1]` on a series (callers establish nonemptiness or
take the exception path). -/
def ilast (l : List ℚ) : ℚ := l.getD (l.length - 1) 0

/-- Pandas `iloc[-2]` on a series (callers establish length at least
two or take the exception path). -/
def iprev (l : List ℚ) : ℚ := l.getD (l.length - 2) 0

/-- Mean of the last `n` entries: `series.tail(n).mean()` (line 221). -/
def tailMean (closes : List ℚ) (n : ℕ) : ℚ :=
  (closes.drop (closes.length - n)).sum / n

/-- Result of a rule body before the final priority adjustment: either
the triple in flight, or an uncaught Python exception (`IndexError` on
`iloc` of a too-short series) that transfers control to the `except`
handler at lines 444-448. -/
inductive EvalOut
  | ok (trig : Bool) (conf : ℚ) (reasons : List String)
  | err
deriving DecidableEq, Repr

/-- The crossed-below test shared by every crossing branch of
`evaluate_trading_rule` (lines 242, 270, 295, 316, 349, 378, 401):
price was above the reference on the prior bar and is below it now. -/
def crossedBelow (prevPrice prevRef currentPrice currentRef : ℚ) : Bool :=
  prevPrice > prevRef && currentPrice < currentRef

/-- Branch body of `evaluate_trading_rule` after the previous-days gate,
one arm per `RuleKind`; `conf0` and `rs0` are the confidence and
reasoning accumulated by the gate.  Each arm mirrors its source lines
(see `RuleKind`); reason strings abstract the source's numeric
interpolation. -/
def evalRuleBody (rule : Rule) (ind : IndicatorSet) (closes : List ℚ)
    (conf0 : ℚ) (rs0 : List String) : EvalOut :=
  let current_price := ilast closes
  match rule.kind with
  | .smaCross21 =>
    -- lines 232-260
    let s := indGet ind.series (.sma rule.length)
    if 2 ≤ s.length then
      if closes.length < 2 then .err
      else if crossedBelow (iprev closes) (iprev s) current_price (ilast s) then
        let rs := rs0 ++ [ "Price crossed below SMA"]
        if rule.priority ≤ 2 then
          let sma_50 := indGet ind.series (.sma 50)
          let sma_200 := indGet ind.series (.sma 200)
          if 0 < sma_50.length ∧ 0 < sma_200.length then
            if current_price > ilast sma_50 ∧ current_price > ilast sma_200 then
              .ok true (4/5 + 1/10) (rs ++ [ "Price above 50 and 200 SMA"])
            else .ok true (4/5 - 1/5) (rs ++ [ "Price below 50 or 200 SMA"])
          else .ok true (4/5) rs
        else .ok true (4/5) rs
      else .ok false conf0 rs0
    else .ok false conf0 rs0
  | .smaCross50 =>
    -- lines 262-285
    let s := indGet ind.series (.sma rule.length)
    if 2 ≤ s.length then
      if closes.length < 2 then .err
      else if crossedBelow (iprev closes) (iprev s) current_price (ilast s) then
        let rs := rs0 ++ [ "Price crossed below SMA"]
        if rule.priority = 2 then
          let sma_200 := indGet ind.series (.sma 200)
          if 0 < sma_200.length then
            if current_price > ilast sma_200 then
              .ok true (7/10 + 1/10) (rs ++ [ "Price above 200 SMA"])
            else .ok true (7/10 - 1/5) (rs ++ [ "Price below 200 SMA"])
          else .ok true (7/10) rs
        else .ok true (7/10) rs
      else .ok false conf0 rs0
    else .ok false conf0 rs0
  | .smaCross200 =>
    -- lines 287-298
    let s := indGet ind.series (.sma rule.length)
    if 2 ≤ s.length then
      if closes.length < 2 then .err
      else if crossedBelow (iprev closes) (iprev s) current_price (ilast s) then
        .ok true (3/5) (rs0 ++ [ "Price crossed below SMA"])
      else .ok false conf0 rs0
    else .ok false conf0 rs0
  | .emaCross10 =>
    -- lines 301-333
    let s := indGet ind.series (.ema rule.length)
    let ema_20 := indGet ind.series (.ema 20)
    let ema_40 := indGet ind.series (.ema 40)
    let sma_200 := indGet ind.series (.sma 200)
    if 2 ≤ s.length ∧ 0 < ema_20.length ∧ 0 < ema_40.length then
      if closes.length < 2 then .err
      else if crossedBelow (iprev closes) (iprev s) current_price (ilast s) then
        let rs := rs0 ++ [ "Price crossed below EMA"]
        if sma_200.length = 0 then .err
        else if current_price > ilast ema_20 ∧ current_price > ilast ema_40 ∧
            current_price > ilast sma_200 then
          .ok true (3/4 + 1/10) (rs ++ [ "Price above 20, 40, and 200 SMA"])
        else .ok true (3/4 - 1/5) (rs ++ [ "Price below 20, 40, or 200 SMA"])
      else .ok false conf0 rs0
    else .ok false conf0 rs0
  | .emaCross20 =>
    -- lines 335-364
    let s := indGet ind.series (.ema rule.length)
    let ema_40 := indGet ind.series (.ema 40)
    let sma_200 := indGet ind.series (.sma 200)
    if 2 ≤ s.length ∧ 0 < ema_40.length ∧ 0 < sma_200.length then
      if closes.length < 2 then .err
      else if crossedBelow (iprev closes) (iprev s) current_price (ilast s) then
        let rs := rs0 ++ [ "Price crossed below EMA"]
        if current_price > ilast ema_40 ∧ current_price > ilast sma_200 then
          .ok true (7/10 + 1/10) (rs ++ [ "Price above 40 and 200 SMA"])
        else .ok true (7/10 - 1/5) (rs ++ [ "Price below 40 or 200 SMA"])
      else .ok false conf0 rs0
    else .ok false conf0 rs0
  | .emaCross40 =>
    -- lines 366-390
    let s := indGet ind.series (.ema rule.length)
    let sma_200 := indGet ind.series (.sma 200)
    if 2 ≤ s.length ∧ 0 < sma_200.length then
      if closes.length < 2 then .err
      else if crossedBelow (iprev closes) (iprev s) current_price (ilast s) then
        let rs := rs0 ++ [ "Price crossed below EMA"]
        if current_price > ilast sma_200 then
          .ok true (13/20 + 1/10) (rs ++ [ "Price above 200 SMA"])
        else .ok true (13/20 - 1/5) (rs ++ [ "Price below 200 SMA"])
      else .ok false conf0 rs0
    else .ok false conf0 rs0
  | .atrStop =>
    -- lines 392-407
    let s := indGet ind.series .atrTrailingStop
    if 2 ≤ s.length then
      if closes.length < 2 then .err
      else if crossedBelow (iprev closes) (iprev s) current_price (ilast s) then
        .ok true (7/10) (rs0 ++ [ "Price crossed below ATR trailing stop"])
      else .ok false (conf0 - 3/10)
        (rs0 ++ [ "Price did not cross below ATR trailing stop"])
    else .ok false conf0 rs0
  | .nymoRule =>
    -- lines 409-425
    let s := indGet ind.series .nymo
    if 0 < s.length then
      if ilast s < rule.nymoThreshold then
        let conf : ℚ :=
          if rule.nymoThreshold = -100 then 19/20
          else if rule.nymoThreshold = -70 then 9/10
          else 4/5
        .ok true conf (rs0 ++ [ "NYMO below threshold"])
      else .ok false conf0 rs0
    else .ok false conf0 rs0
  | .smaCrossOther => .ok false conf0 rs0
  | .emaCrossOther => .ok false conf0 rs0
  | .otherRule => .ok false conf0 rs0

/-- Final priority adjustment (lines 427-432) and error-path collapse:
a triggered signal gets `min(1, confidence + (10 - priority) * 0.05)`;
an exception reaches the handler at lines 444-448 and becomes
`(False, 0.0, "Error: ...")`. -/
def finalizeEval (priority : ℤ) : EvalOut → Bool × ℚ × List String
  | .err => (false, 0, [ "Error"])
  | .ok trig conf reasons =>
    if trig then
      (true, min 1 (conf + ((10 : ℚ) - priority) * (1/20)),
        reasons ++ [ "Priority rule"])
    else (false, conf, reasons)

/-- Embedding of `TechnicalIndicators.evaluate_trading_rule`
(technical_indicators.py lines 198-448).  A missing `data` key raises
`KeyError` at line 214 and empty data raises `IndexError` there; both
are caught by the handler and become `(False, 0.0, error text)`.  The
previous-days gate (lines 218-228) adds 0.2 when the current price is
above the trailing mean, and otherwise returns early with confidence
reduced by 0.3 — a hard veto. -/
def evaluate_trading_rule (rule : Rule) (ind : IndicatorSet) :
    Bool × ℚ × List String :=
  match ind.data with
  | none => (false, 0, [ "Error"])
  | some closes =>
    if closes.length = 0 then (false, 0, [ "Error"])
    else
      let current_price := ilast closes
      match rule.previousDays with
      | some n =>
        if n ≤ closes.length then
          if current_price > tailMean closes n then
            finalizeEval rule.priority
              (evalRuleBody rule ind closes (1/5)
                [ "Price above previous days average"])
          else (false, 0 - 3/10, [ "Price below previous days average"])
        else finalizeEval rule.priority (evalRuleBody rule ind closes 0 [])
      | none => finalizeEval rule.priority (evalRuleBody rule ind closes 0 [])

/-! ## Per-ticker rule loop (`DataManager.evaluate_all_rules_for_ticker`,
data_manager.py lines 281-342) -/

/-- Signal dict built at lines 310-323 (the fields the claims touch). -/
structure Signal where
  rule : Rule
  confidence : ℚ
  reasoning : List String

/-- One iteration of the rule loop (lines 291-325): compute the
timeframe's indicators (`none` models the `continue` at line 299), then
evaluate; only a triggered rule contributes a signal. -/
def ruleSignal (indFor : Rule → Option IndicatorSet) (rule : Rule) :
    Option Signal :=
  match indFor rule with
  | none => none
  | some ind =>
    let out := evaluate_trading_rule rule ind
    if out.1 then some { rule := rule, confidence := out.2.1, reasoning := out.2.2 }
    else none

/-- Embedding of `DataManager.evaluate_all_rules_for_ticker`: collect
the triggered rules' signals in rule order, then the stable sort by
priority at line 332. -/
def evaluate_all_rules_for_ticker (indFor : Rule → Option IndicatorSet)
    (rules : List Rule) : List Signal :=
  (rules.filterMap (ruleSignal indFor)).mergeSort
    (fun a b => a.rule.priority ≤ b.rule.priority)

/-- The crossing rule families: the kinds whose branch in
`evaluate_trading_rule` contains the crossed-below transition test. -/
def isCrossKind : RuleKind → Bool
  | .smaCross21 | .smaCross50 | .smaCross200 => true
  | .emaCross10 | .emaCross20 | .emaCross40 => true
  | .atrStop => true
  | _ => false

/-- The indicator key a crossing branch reads its reference series from
(the `indicators.get` key at lines 234, 264, 289, 303, 337, 368, 394). -/
def primaryKey (rule : Rule) : IndKey :=
  match rule.kind with
  | .smaCross21 | .smaCross50 | .smaCross200 => .sma rule.length
  | .emaCross10 | .emaCross20 | .emaCross40 => .ema rule.length
  | _ => .atrTrailingStop

/-- The indicator set as it stands when only the first `t + 1` bars have
been observed: the close series and every indicator series truncated to
that prefix (evaluating a rule "at bar t"). -/
def truncInd (closes : List ℚ) (series : IndKey → Option (List ℚ))
    (t : ℕ) : IndicatorSet :=
  { data := some (closes.take (t + 1))
    series := fun k => (series k).map (fun l => l.take (t + 1)) }

/-! ## Helper lemmas -/

theorem pyInt_eq_floor {q : ℚ} (h : 0 ≤ q) : pyInt q = ⌊q⌋ := if_pos h

theorem pyInt_nonpos {q : ℚ} (h : q ≤ 0) : pyInt q ≤ 0 := by
  unfold pyInt
  split_ifs with h0
  · have : q = 0 := le_antisymm h h0
    simp [this]
  · exact Int.ceil_le.mpr (by simpa using h)

theorem pyInt_zero : pyInt 0 = 0 := by simp [pyInt]

/-- Unfolding equation for `calculate_atr_position_size` away from the
degenerate denominators. -/
theorem calculate_atr_position_size_eq (pv p a l : ℚ) (hp0 : p ≠ 0)
    (hpv0 : pv ≠ 0) :
    calculate_atr_position_size pv p a l = some
      { shares := pyInt ((if pv * (a / p) / pv * 100 ≤ l then pv * (a / p)
          else pv * (l / 100)) / p)
        position_value := (pyInt ((if pv * (a / p) / pv * 100 ≤ l
          then pv * (a / p) else pv * (l / 100)) / p) : ℚ) * p
        position_pct := (pyInt ((if pv * (a / p) / pv * 100 ≤ l
          then pv * (a / p) else pv * (l / 100)) / p) : ℚ) * p / pv * 100
        sizing_method := if pv * (a / p) / pv * 100 ≤ l
          then SizingMethod.atrBased else SizingMethod.limitBased
        atr_position_pct := pv * (a / p) / pv * 100
        limit_position_pct := l
        atr_value := a
        current_price := p } := by
  unfold calculate_atr_position_size
  rw [if_neg (by push_neg; exact ⟨hp0, hpv0⟩)]

/-! ## C1: entry sizing -/

/-- C1: for positive portfolio value, price, ATR and purchase limit, entry
sizing computes the ATR percentage `(atr/price)*100` and the limit
percentage, lets the smaller govern the sizing method, returns
`shares = floor(chosenValue/price)`, and therefore
`shares * price ≤ portfolioValue * min(atrPct, limitPct) / 100`; in
particular at (100000, 150, 3.5, 2.0) the method is Limit-based with 13
shares. -/
theorem sizeEntry_spec :
    (∀ pv p a l : ℚ, 0 < pv → 0 < p → 0 < a → 0 < l →
      ∃ r, calculate_atr_position_size pv p a l = some r ∧
        r.atr_position_pct = a / p * 100 ∧
        r.limit_position_pct = l ∧
        r.sizing_method = (if a / p * 100 ≤ l then SizingMethod.atrBased
          else SizingMethod.limitBased) ∧
        (r.shares : ℚ) = ⌊pv * min (a / p * 100) l / 100 / p⌋ ∧
        (r.shares : ℚ) * p ≤ pv * min (a / p * 100) l / 100) ∧
    (∃ r, calculate_atr_position_size 100000 150 (7/2) 2 = some r ∧
      r.sizing_method = SizingMethod.limitBased ∧ r.shares = 13) := by
  have hgen : ∀ pv p a l : ℚ, 0 < pv → 0 < p → 0 < a → 0 < l →
      ∃ r, calculate_atr_position_size pv p a l = some r ∧
        r.atr_position_pct = a / p * 100 ∧
        r.limit_position_pct = l ∧
        r.sizing_method = (if a / p * 100 ≤ l then SizingMethod.atrBased
          else SizingMethod.limitBased) ∧
        (r.shares : ℚ) = ⌊pv * min (a / p * 100) l / 100 / p⌋ ∧
        (r.shares : ℚ) * p ≤ pv * min (a / p * 100) l / 100 := by
    intro pv p a l hpv hp ha hl
    have hp0 : p ≠ 0 := ne_of_gt hp
    have hpv0 : pv ≠ 0 := ne_of_gt hpv
    have hpct : pv * (a / p) / pv * 100 = a / p * 100 := by
      rw [mul_comm pv (a / p), mul_div_assoc, div_self hpv0, mul_one]
    have hchosen :
        (if pv * (a / p) / pv * 100 ≤ l then pv * (a / p) else pv * (l / 100)) =
          pv * min (a / p * 100) l / 100 := by
      rw [hpct]
      split_ifs with hc
      · rw [min_eq_left hc]; field_simp; ring
      · rw [min_eq_right (le_of_not_le hc)]; ring
    have hchosen_pos : 0 < pv * min (a / p * 100) l / 100 := by
      apply div_pos _ (by norm_num)
      exact mul_pos hpv (lt_min (by positivity) hl)
    refine ⟨_, calculate_atr_position_size_eq pv p a l hp0 hpv0,
      hpct, rfl, ?_, ?_, ?_⟩
    · show (if pv * (a / p) / pv * 100 ≤ l then SizingMethod.atrBased
        else SizingMethod.limitBased) = _
      rw [hpct]
    · show (pyInt ((if pv * (a / p) / pv * 100 ≤ l then pv * (a / p)
        else pv * (l / 100)) / p) : ℚ) = _
      rw [hchosen, pyInt_eq_floor (le_of_lt (div_pos hchosen_pos hp))]
    · show (pyInt ((if pv * (a / p) / pv * 100 ≤ l then pv * (a / p)
        else pv * (l / 100)) / p) : ℚ) * p ≤ _
      rw [hchosen, pyInt_eq_floor (le_of_lt (div_pos hchosen_pos hp))]
      calc (⌊pv * min (a / p * 100) l / 100 / p⌋ : ℚ) * p
          ≤ pv * min (a / p * 100) l / 100 / p * p :=
            mul_le_mul_of_nonneg_right (Int.floor_le _) (le_of_lt hp)
        _ = pv * min (a / p * 100) l / 100 := div_mul_cancel₀ _ hp0
  refine ⟨hgen, ?_⟩
  obtain ⟨r, hr, h1, h2, h3, h4, h5⟩ :=
    hgen 100000 150 (7/2) 2 (by norm_num) (by norm_num) (by norm_num)
      (by norm_num)
  have hmin : min ((7:ℚ)/2 / 150 * 100) 2 = 2 :=
    min_eq_right (by norm_num)
  refine ⟨r, hr, ?_, ?_⟩
  · rw [h3, if_neg (by norm_num)]
  · have hfl : ⌊(100000 * min ((7:ℚ)/2 / 150 * 100) 2 / 100 / 150 : ℚ)⌋ = 13 := by
      rw [hmin, Int.floor_eq_iff]; norm_num
    rw [hfl] at h4
    exact_mod_cast h4

/-- C1 witness: the sizing bound instantiated at portfolio 100000,
price 150, ATR 3.5, limit 2. -/
theorem sizeEntry_spec_witness :
    ∃ r, calculate_atr_position_size 100000 150 (7/2) 2 = some r ∧
      (r.shares : ℚ) * 150 ≤ 100000 * min ((7/2) / 150 * 100) 2 / 100 := by
  obtain ⟨r, hr, -, -, -, -, hle⟩ :=
    sizeEntry_spec.1 100000 150 (7/2) 2 (by norm_num) (by norm_num)
      (by norm_num) (by norm_num)
  exact ⟨r, hr, hle⟩

/-! ## C7: degenerate sizing inputs -/

/-- C7 counterexample: with a negative price (portfolio 100000, price
-150, ATR 3.5, limit 2) entry sizing returns a result with 15 shares —
a positive position, not a rejected no-share result. -/
theorem sizeEntry_degenerate_cex :
    (calculate_atr_position_size 100000 (-150) (7/2) 2).map
        SizingResult.shares = some 15 ∧ (0 : ℤ) < 15 := by
  constructor
  · rw [calculate_atr_position_size_eq 100000 (-150) (7/2) 2 (by norm_num)
      (by norm_num)]
    rw [Option.map_some']
    congr 1
    show pyInt _ = 15
    rw [if_pos (by norm_num), pyInt_eq_floor (by norm_num)]
    rw [Int.floor_eq_iff]; norm_num
  · norm_num

/-- C7 amended: a zero price or zero portfolio value raises internally
and is recovered locally as the rejected empty result; for positive
portfolio and price, a nonpositive ATR yields a nonpositive share count
(exactly zero when the ATR is zero and the limit is nonnegative); a
negative price, however, can produce a positive share count. -/
theorem sizeEntry_degenerate_amended :
    (∀ pv p a l : ℚ, p = 0 ∨ pv = 0 →
      calculate_atr_position_size pv p a l = none) ∧
    (∀ pv p a l : ℚ, 0 < pv → 0 < p → a ≤ 0 → 0 ≤ l →
      ∃ r, calculate_atr_position_size pv p a l = some r ∧
        r.shares ≤ 0 ∧ (a = 0 → r.shares = 0)) := by
  constructor
  · intro pv p a l h
    unfold calculate_atr_position_size
    rw [if_pos h]
  · intro pv p a l hpv hp ha hl
    have hp0 : p ≠ 0 := ne_of_gt hp
    have hpv0 : pv ≠ 0 := ne_of_gt hpv
    have hpct : pv * (a / p) / pv * 100 = a / p * 100 := by
      rw [mul_comm pv (a / p), mul_div_assoc, div_self hpv0, mul_one]
    have hatr_nonpos : a / p * 100 ≤ l :=
      le_trans (by
        apply mul_nonpos_of_nonpos_of_nonneg _ (by norm_num)
        exact div_nonpos_of_nonpos_of_nonneg ha (le_of_lt hp)) hl
    have hbranch : pv * (a / p) / pv * 100 ≤ l := by
      rw [hpct]; exact hatr_nonpos
    refine ⟨_, calculate_atr_position_size_eq pv p a l hp0 hpv0, ?_, ?_⟩
    · show pyInt ((if pv * (a / p) / pv * 100 ≤ l then pv * (a / p)
        else pv * (l / 100)) / p) ≤ 0
      rw [if_pos hbranch]
      apply pyInt_nonpos
      apply div_nonpos_of_nonpos_of_nonneg _ (le_of_lt hp)
      exact mul_nonpos_of_nonneg_of_nonpos (le_of_lt hpv)
        (div_nonpos_of_nonpos_of_nonneg ha (le_of_lt hp))
    · intro ha0
      show pyInt ((if pv * (a / p) / pv * 100 ≤ l then pv * (a / p)
        else pv * (l / 100)) / p) = 0
      rw [if_pos hbranch, ha0]
      norm_num [pyInt_zero]

/-- C7 witness: zero price is rejected as `none`, and a zero ATR at
portfolio 100000, price 150, limit 2 allocates exactly zero shares. -/
theorem sizeEntry_degenerate_amended_witness :
    calculate_atr_position_size 5 0 1 1 = none ∧
    ∃ r, calculate_atr_position_size 100000 150 0 2 = some r ∧
      r.shares = 0 := by
  constructor
  · exact sizeEntry_degenerate_amended.1 5 0 1 1 (Or.inl rfl)
  · obtain ⟨r, hr, -, h0⟩ :=
      sizeEntry_degenerate_amended.2 100000 150 0 2 (by norm_num)
        (by norm_num) (by norm_num) (by norm_num)
    exact ⟨r, hr, h0 rfl⟩

/-! ## C9: averaging-down tranche sizing -/

/-- Unfolding equation for `calculate_averaging_down_size` away from the
degenerate denominators, with the pair projections resolved. -/
theorem calculate_averaging_down_size_eq (pv p a : ℚ) (level : String)
    (hp0 : p ≠ 0) (hpv0 : pv ≠ 0) :
    calculate_averaging_down_size pv p a level = some
      { shares := pyInt (pv * ((if level = "2x ATR" then (1/2 : ℚ)
          else if level = "3x ATR" then 3/4
          else if level = "4x ATR" then 1 else 1/2) / 100) / p)
        position_value := (pyInt (pv * ((if level = "2x ATR" then (1/2 : ℚ)
          else if level = "3x ATR" then 3/4
          else if level = "4x ATR" then 1 else 1/2) / 100) / p) : ℚ) * p
        position_pct := (pyInt (pv * ((if level = "2x ATR" then (1/2 : ℚ)
          else if level = "3x ATR" then 3/4
          else if level = "4x ATR" then 1 else 1/2) / 100) / p) : ℚ) * p
            / pv * 100
        averaging_level := level
        confidence_boost := if level = "2x ATR" then (1/10 : ℚ)
          else if level = "3x ATR" then 1/5
          else if level = "4x ATR" then 3/10 else 1/10
        current_price := p } := by
  unfold calculate_averaging_down_size
  rw [if_neg (by push_neg; exact ⟨hp0, hpv0⟩)]
  split_ifs <;> rfl

/-- C9: for positive portfolio value and price, averaging-down sizing
allocates the literal portfolio percentage 0.5 / 0.75 / 1.0 for the
2x / 3x / 4x ATR tiers (any other label falling back to 0.5), with
`shares = floor(portfolioValue * (basePct/100) / price)` — a percentage
of portfolio value, not a multiple of the original position size. -/
theorem sizeAveragingDown_spec (pv p a : ℚ) (level : String)
    (hpv : 0 < pv) (hp : 0 < p) :
    ∃ r, calculate_averaging_down_size pv p a level = some r ∧
      (r.shares : ℚ) =
        ⌊pv * ((if level = "2x ATR" then (1/2 : ℚ)
          else if level = "3x ATR" then 3/4
          else if level = "4x ATR" then 1 else 1/2) / 100) / p⌋ ∧
      0 ≤ r.shares := by
  have hp0 : p ≠ 0 := ne_of_gt hp
  have hpv0 : pv ≠ 0 := ne_of_gt hpv
  have hbp : (0 : ℚ) <
      (if level = "2x ATR" then (1/2 : ℚ)
        else if level = "3x ATR" then 3/4
        else if level = "4x ATR" then 1 else 1/2) := by
    split_ifs <;> norm_num
  have hq : 0 ≤ pv * ((if level = "2x ATR" then (1/2 : ℚ)
      else if level = "3x ATR" then 3/4
      else if level = "4x ATR" then 1 else 1/2) / 100) / p := by positivity
  refine ⟨_, calculate_averaging_down_size_eq pv p a level hp0 hpv0, ?_, ?_⟩
  · show (pyInt (pv * ((if level = "2x ATR" then (1/2 : ℚ)
      else if level = "3x ATR" then 3/4
      else if level = "4x ATR" then 1 else 1/2) / 100) / p) : ℚ) = _
    rw [pyInt_eq_floor hq]
  · show 0 ≤ pyInt (pv * ((if level = "2x ATR" then (1/2 : ℚ)
      else if level = "3x ATR" then 3/4
      else if level = "4x ATR" then 1 else 1/2) / 100) / p)
    rw [pyInt_eq_floor hq]
    exact Int.floor_nonneg.mpr hq

/-- C9 witness: the averaging-down sizing applied at portfolio 100000,
price 150, ATR 1, tier label 2x ATR. -/
theorem sizeAveragingDown_spec_witness :
    ∃ r, calculate_averaging_down_size 100000 150 1 "2x ATR" = some r ∧
      (r.shares : ℚ) =
        ⌊(100000 : ℚ) * ((if ("2x ATR" : String) = "2x ATR" then (1/2 : ℚ)
          else if ("2x ATR" : String) = "3x ATR" then 3/4
          else if ("2x ATR" : String) = "4x ATR" then 1 else 1/2) / 100) / 150⌋ ∧
      0 ≤ r.shares :=
  sizeAveragingDown_spec 100000 150 1 "2x ATR" (by norm_num) (by norm_num)

/-! ## C2: averaging-down thresholds -/

/-- C2: for a tracked position with positive entry price, averaging-down
triggers exactly when one of the four independent thresholds on the drop
`entry - current` is met (2x/3x/4x ATR or `entry * pctThreshold`), and
the reported confidence is that of the highest-confidence threshold met
(0.9 for 4x, then 0.8, 0.7, 0.6); in particular entry 150, current 140,
ATR 3.5 triggers with confidence 0.70. -/
theorem shouldAverageDown_spec (st : PMState) (ticker : String)
    (current entry atr pct : ℚ)
    (hpos : (st.positions.lookup ticker).isSome) (hentry : 0 < entry) :
    ((should_average_down st ticker current entry atr pct).1.1 =
      (decide (entry - current ≥ atr * 2) || decide (entry - current ≥ atr * 3) ||
        decide (entry - current ≥ atr * 4) ||
        decide (entry - current ≥ entry * pct))) ∧
    ((should_average_down st ticker current entry atr pct).1.1 = true →
      (should_average_down st ticker current entry atr pct).1.2.1 =
        (if entry - current ≥ atr * 4 then 9/10
          else if entry - current ≥ atr * 3 then 4/5
          else if entry - current ≥ atr * 2 then 7/10 else 3/5)) ∧
    (entry = 150 → current = 140 → atr = 7/2 →
      (should_average_down st ticker current entry atr pct).1.1 = true ∧
      (should_average_down st ticker current entry atr pct).1.2.1 = 7/10) := by
  obtain ⟨pos, hlk⟩ := Option.isSome_iff_exists.mp hpos
  have hne : entry ≠ 0 := ne_of_gt hentry
  refine ⟨?_, ?_, ?_⟩
  · simp only [should_average_down, hlk, if_neg hne]
    by_cases h2 : entry - current ≥ atr * 2 <;>
      by_cases h3 : entry - current ≥ atr * 3 <;>
      by_cases h4 : entry - current ≥ atr * 4 <;>
      by_cases h5 : entry - current ≥ entry * pct <;>
      norm_num [h2, h3, h4, h5]
  · intro htrig
    simp only [should_average_down, hlk, if_neg hne] at htrig ⊢
    by_cases h2 : entry - current ≥ atr * 2 <;>
      by_cases h3 : entry - current ≥ atr * 3 <;>
      by_cases h4 : entry - current ≥ atr * 4 <;>
      by_cases h5 : entry - current ≥ entry * pct <;>
      norm_num [h2, h3, h4, h5] at htrig ⊢
  · intro he hc ha
    subst he; subst hc; subst ha
    simp only [should_average_down, hlk, if_neg hne]
    by_cases h5 : 150 * pct ≤ (10 : ℚ) <;> norm_num [h5]

/-- C2 witness: the characterization applied to a state tracking AAPL
with entry 150, current 140, ATR 3.5, threshold 5 percent. -/
theorem shouldAverageDown_spec_witness :
    (should_average_down ⟨[( "AAPL", ⟨150, 10, 1500, 1/2⟩)]⟩ "AAPL"
      140 150 (7/2) (1/20)).1.1 = true ∧
    (should_average_down ⟨[( "AAPL", ⟨150, 10, 1500, 1/2⟩)]⟩ "AAPL"
      140 150 (7/2) (1/20)).1.2.1 = 7/10 :=
  (shouldAverageDown_spec ⟨[( "AAPL", ⟨150, 10, 1500, 1/2⟩)]⟩ "AAPL"
    140 150 (7/2) (1/20) (by decide) (by norm_num)).2.2 rfl rfl rfl

/-! ## C10: untracked tickers -/

/-- C10: for a ticker with no tracked position, both the averaging-down
query and the partial-profit query return
`(false, 0.0, "No existing position")` for all prices, entry prices,
ATR values and thresholds, and leave the position map unchanged. -/
theorem noPosition_noop_spec (st : PMState) (ticker : String)
    (current entry atr pct sma200 : ℚ)
    (h : st.positions.lookup ticker = none) :
    should_average_down st ticker current entry atr pct =
      ((false, 0, "No existing position"), st) ∧
    should_take_partial_profit st ticker current entry sma200 =
      ((false, 0, "No existing position"), st) := by
  constructor
  · simp only [should_average_down, h]
  · simp only [should_take_partial_profit, h]

/-- C10 witness: the untracked-ticker behaviour at an empty position
map with arbitrary concrete prices. -/
theorem noPosition_noop_spec_witness :
    should_average_down ⟨[]⟩ "AAPL" 1 2 3 4 =
      ((false, 0, "No existing position"), (⟨[]⟩ : PMState)) ∧
    should_take_partial_profit ⟨[]⟩ "AAPL" 1 2 5 =
      ((false, 0, "No existing position"), (⟨[]⟩ : PMState)) :=
  noPosition_noop_spec ⟨[]⟩ "AAPL" 1 2 3 4 5 rfl

/-! ## C6: warm-up windows -/

/-- C6 counterexample: with one bar of history and ATR period 14 (history
shorter than the period), the ATR series holds the number zero, not the
"no value" marker. -/
theorem atr_warmup_cex :
    (calculate_atr [⟨2, 1, 2⟩] 14).getD 0 none = some 0 ∧
    some (0 : ℚ) ≠ (none : Option ℚ) := by
  constructor
  · rfl
  · simp

/-- C6 amended: a period-N simple moving average is the explicit
"no value" marker exactly on indices `0..N-2` and defined from `N-1` on;
ATR, however, returns a series of literal zeros (not markers) whenever
the input history is shorter than the period. -/
theorem warmup_novalue_amended :
    (∀ (closes : List ℚ) (period i : ℕ), i < closes.length →
      ((calculate_sma closes period).getD i none = none ↔ i + 1 < period)) ∧
    (∀ (bars : List Bar) (period : ℕ), bars.length < period →
      calculate_atr bars period = List.replicate bars.length (some 0)) := by
  constructor
  · intro closes period i hi
    unfold calculate_sma
    rw [List.getD_eq_getElem?_getD, List.getElem?_map, List.getElem?_range hi]
    simp only [Option.map_some', Option.getD_some]
    split_ifs with h <;> simp <;> omega
  · intro bars period h
    unfold calculate_atr
    rw [if_pos h]

/-- C6 witness: a 2-period SMA of a 3-bar series has no value at index 0,
and a 14-period ATR of a single bar is the all-zero series. -/
theorem warmup_novalue_amended_witness :
    (calculate_sma [1, 2, 3] 2).getD 0 none = none ∧
    calculate_atr [⟨2, 1, 2⟩] 14 = List.replicate 1 (some 0) := by
  constructor
  · exact (warmup_novalue_amended.1 [1, 2, 3] 2 0 (by norm_num)).mpr
      (by norm_num)
  · exact warmup_novalue_amended.2 [⟨2, 1, 2⟩] 14 (by norm_num)

/-! ## C5: exponential moving average -/

/-- C5 counterexample: on the close series [0, 1] with period 3 the
code's EMA (pandas `ewm(span)` with the default `adjust=True`) differs
from the plain recursion `ema[t] = close[t]*alpha + ema[t-1]*(1-alpha)`
seeded at the first bar: the code gives 2/3 at index 1, the recursion
1/2. -/
theorem ema_recursion_cex :
    calculate_ema [0, 1] 3 ≠ emaSpecRecursion [0, 1] 3 := by
  norm_num [calculate_ema, emaSpecRecursion, ewmAdjAux, List.scanl]

/-- Value of the adjusted exponential weighted mean at any index, with
explicit accumulators. -/
theorem ewmAdjAux_getD (om : ℚ) (l : List ℚ) :
    ∀ (num den : ℚ) (k : ℕ), k < l.length →
      (ewmAdjAux om num den l).getD k 0 =
        ((∑ i in Finset.range (k + 1), om ^ i * l.getD (k - i) 0) +
            om ^ (k + 1) * num) /
          ((∑ i in Finset.range (k + 1), om ^ i) + om ^ (k + 1) * den) := by
  induction l with
  | nil => intro num den k hk; simp at hk
  | cons x xs ih =>
    intro num den k hk
    cases k with
    | zero =>
      simp [ewmAdjAux, Finset.sum_range_one]
    | succ k =>
      have hk' : k < xs.length := by simpa using hk
      have hstep : (ewmAdjAux om num den (x :: xs)).getD (k + 1) 0 =
          (ewmAdjAux om (x + om * num) (1 + om * den) xs).getD k 0 := by
        simp [ewmAdjAux, List.getD_cons_succ]
      rw [hstep, ih (x + om * num) (1 + om * den) k hk']
      have hnum : (∑ i in Finset.range (k + 1 + 1),
            om ^ i * (x :: xs).getD (k + 1 - i) 0) =
          (∑ i in Finset.range (k + 1), om ^ i * xs.getD (k - i) 0) +
            om ^ (k + 1) * x := by
        rw [Finset.sum_range_succ]
        congr 1
        · apply Finset.sum_congr rfl
          intro i hi
          rw [Finset.mem_range] at hi
          have h1 : k + 1 - i = (k - i) + 1 := by omega
          rw [h1, List.getD_cons_succ]
        · simp
      have hden : (∑ i in Finset.range (k + 1 + 1), om ^ i) =
          (∑ i in Finset.range (k + 1), om ^ i) + om ^ (k + 1) :=
        Finset.sum_range_succ _ _
      rw [hnum, hden]
      congr 1 <;> ring

/-- C5 amended: the code's EMA equals the pandas adjusted weighted mean —
at index t it is the `(1-alpha)^i`-weighted average of the closes up to
t with `alpha = 2/(period+1)` — and in particular it is still seeded
from the first bar (`ema[0] = close[0]`); it is not the plain spec
recursion (see the counterexample). -/
theorem ema_adjusted_spec :
    (∀ (closes : List ℚ) (period t : ℕ), t < closes.length →
      (calculate_ema closes period).getD t 0 =
        emaAdjustedSpec (2 / ((period : ℚ) + 1)) closes t) ∧
    (∀ (closes : List ℚ) (period : ℕ), 0 < closes.length →
      (calculate_ema closes period).getD 0 0 = closes.getD 0 0) := by
  have hmain : ∀ (closes : List ℚ) (period t : ℕ), t < closes.length →
      (calculate_ema closes period).getD t 0 =
        emaAdjustedSpec (2 / ((period : ℚ) + 1)) closes t := by
    intro closes period t ht
    unfold calculate_ema emaAdjustedSpec
    rw [ewmAdjAux_getD _ closes 0 0 t ht]
    simp
  refine ⟨hmain, ?_⟩
  intro closes period h0
  rw [hmain closes period 0 h0]
  unfold emaAdjustedSpec
  simp [Finset.sum_range_one]

/-- C5 witness: the weighted-mean characterization applied to the series
[5, 7] with period 10 at index 1. -/
theorem ema_adjusted_spec_witness :
    1 < ([5, 7] : List ℚ).length ∧
    (calculate_ema [5, 7] 10).getD 1 0 =
      emaAdjustedSpec (2 / (((10 : ℕ) : ℚ) + 1)) [5, 7] 1 :=
  ⟨by norm_num, ema_adjusted_spec.1 [5, 7] 10 1 (by norm_num)⟩

/-! ## Rule evaluator helper lemmas -/

/-- A finalized evaluation is triggered exactly when the branch body
produced a triggered result, and then the confidence is the clamped
priority-boosted one. -/
theorem finalize_body_true (p : ℤ) (o : EvalOut)
    (h : (finalizeEval p o).1 = true) :
    ∃ c rs, o = .ok true c rs ∧
      (finalizeEval p o).2.1 = min 1 (c + ((10 : ℚ) - p) * (1/20)) := by
  cases o with
  | err => simp [finalizeEval] at h
  | ok trig conf rs =>
    cases trig
    · simp [finalizeEval] at h
    · exact ⟨conf, rs, rfl, by simp [finalizeEval]⟩

/-- Every triggered branch body reports a base-plus-confirmation
confidence between 0.4 and 0.95. -/
theorem evalRuleBody_true_conf (rule : Rule) (ind : IndicatorSet)
    (closes : List ℚ) (conf0 : ℚ) (rs0 : List String) (c : ℚ)
    (rs : List String)
    (h : evalRuleBody rule ind closes conf0 rs0 = .ok true c rs) :
    2/5 ≤ c ∧ c ≤ 19/20 := by
  cases hkind : rule.kind <;>
    simp only [evalRuleBody, hkind] at h <;>
    (try split_ifs at h) <;>
    simp only [EvalOut.ok.injEq, reduceCtorEq, Bool.false_eq_true, false_and,
      true_and, and_false] at h <;>
    (try rw [← h.1]) <;> norm_num

/-- A triggered crossing branch establishes the one-bar transition on
the primary reference series. -/
theorem evalRuleBody_true_cross (rule : Rule) (ind : IndicatorSet)
    (closes : List ℚ) (conf0 : ℚ) (rs0 : List String) (c : ℚ)
    (rs : List String) (hk : isCrossKind rule.kind = true)
    (h : evalRuleBody rule ind closes conf0 rs0 = .ok true c rs) :
    2 ≤ closes.length ∧
      2 ≤ (indGet ind.series (primaryKey rule)).length ∧
      crossedBelow (iprev closes) (iprev (indGet ind.series (primaryKey rule)))
        (ilast closes) (ilast (indGet ind.series (primaryKey rule))) = true := by
  cases hkind : rule.kind
  case nymoRule => rw [hkind] at hk; simp [isCrossKind] at hk
  all_goals
    simp only [primaryKey, hkind]
    simp only [evalRuleBody, hkind] at h
    (try split_ifs at h) <;>
      simp only [EvalOut.ok.injEq, reduceCtorEq, Bool.false_eq_true,
        false_and, true_and, and_false] at h <;>
      exact ⟨by omega, by omega, by assumption⟩

/-- A crossing branch whose primary indicator key is absent falls back
to the one-element default series and leaves the accumulated state
untouched (not triggered). -/
theorem evalRuleBody_absent (rule : Rule) (ind : IndicatorSet)
    (closes : List ℚ) (conf0 : ℚ) (rs0 : List String)
    (hk : isCrossKind rule.kind = true)
    (hs : ind.series (primaryKey rule) = none) :
    evalRuleBody rule ind closes conf0 rs0 = .ok false conf0 rs0 := by
  cases hkind : rule.kind
  case nymoRule => rw [hkind] at hk; simp [isCrossKind] at hk
  all_goals
    simp only [primaryKey, hkind] at hs
    simp [evalRuleBody, hkind, indGet, hs]

/-- A breadth branch whose indicator key is absent reads the default
zero series and, for a nonpositive threshold, does not trigger. -/
theorem evalRuleBody_nymo_absent (rule : Rule) (ind : IndicatorSet)
    (closes : List ℚ) (conf0 : ℚ) (rs0 : List String)
    (hkind : rule.kind = .nymoRule) (hs : ind.series .nymo = none)
    (hth : rule.nymoThreshold ≤ 0) :
    evalRuleBody rule ind closes conf0 rs0 = .ok false conf0 rs0 := by
  have hlast : ilast ((ind.series IndKey.nymo).getD [0]) = 0 := by
    rw [hs]; rfl
  simp only [evalRuleBody, hkind, indGet, hlast]
  rw [if_pos (by rw [hs]; norm_num), if_neg (not_lt.mpr hth)]

/-- Unfolding `evaluate_trading_rule` when the `data` key is absent. -/
theorem eval_unfold_nodata (rule : Rule) (ind : IndicatorSet)
    (hd : ind.data = none) :
    evaluate_trading_rule rule ind = (false, 0, [ "Error"]) := by
  simp only [evaluate_trading_rule, hd]

/-- Unfolding `evaluate_trading_rule` on an empty close series. -/
theorem eval_unfold_empty (rule : Rule) (ind : IndicatorSet)
    (closes : List ℚ) (hd : ind.data = some closes)
    (h0 : closes.length = 0) :
    evaluate_trading_rule rule ind = (false, 0, [ "Error"]) := by
  simp only [evaluate_trading_rule, hd]
  rw [if_pos h0]

/-- Unfolding `evaluate_trading_rule` when the rule has no
`previous_days` key. -/
theorem eval_unfold_nopd (rule : Rule) (ind : IndicatorSet)
    (closes : List ℚ) (hd : ind.data = some closes)
    (h0 : ¬ closes.length = 0) (hpd : rule.previousDays = none) :
    evaluate_trading_rule rule ind =
      finalizeEval rule.priority (evalRuleBody rule ind closes 0 []) := by
  simp only [evaluate_trading_rule, hd, hpd]
  rw [if_neg h0]

/-- Unfolding `evaluate_trading_rule` when the `previous_days` window
exceeds the available history (gate silently skipped). -/
theorem eval_unfold_pd_skip (rule : Rule) (ind : IndicatorSet)
    (closes : List ℚ) (n : ℕ) (hd : ind.data = some closes)
    (h0 : ¬ closes.length = 0) (hpd : rule.previousDays = some n)
    (hn : ¬ n ≤ closes.length) :
    evaluate_trading_rule rule ind =
      finalizeEval rule.priority (evalRuleBody rule ind closes 0 []) := by
  simp only [evaluate_trading_rule, hd, hpd]
  rw [if_neg h0, if_neg hn]

/-- Unfolding `evaluate_trading_rule` when the `previous_days` gate
passes (confidence 0.2 carried into the branch body). -/
theorem eval_unfold_pd_pass (rule : Rule) (ind : IndicatorSet)
    (closes : List ℚ) (n : ℕ) (hd : ind.data = some closes)
    (h0 : ¬ closes.length = 0) (hpd : rule.previousDays = some n)
    (hn : n ≤ closes.length) (hg : ilast closes > tailMean closes n) :
    evaluate_trading_rule rule ind =
      finalizeEval rule.priority (evalRuleBody rule ind closes (1/5)
        [ "Price above previous days average"]) := by
  simp only [evaluate_trading_rule, hd, hpd]
  rw [if_neg h0, if_pos hn, if_pos hg]

/-- Unfolding `evaluate_trading_rule` on the hard veto: price at or
below the trailing previous-days mean. -/
theorem eval_unfold_pd_veto (rule : Rule) (ind : IndicatorSet)
    (closes : List ℚ) (n : ℕ) (hd : ind.data = some closes)
    (h0 : ¬ closes.length = 0) (hpd : rule.previousDays = some n)
    (hn : n ≤ closes.length) (hg : ¬ ilast closes > tailMean closes n) :
    evaluate_trading_rule rule ind =
      (false, 0 - 3/10, [ "Price below previous days average"]) := by
  simp only [evaluate_trading_rule, hd, hpd]
  rw [if_neg h0, if_pos hn, if_neg hg]

/-- A triggered evaluation decomposes into a nonempty close series, a
triggered branch body, and the clamped priority-boosted confidence. -/
theorem eval_true_body (rule : Rule) (ind : IndicatorSet)
    (ht : (evaluate_trading_rule rule ind).1 = true) :
    ∃ closes conf0 rs0 c rs, ind.data = some closes ∧ closes.length ≠ 0 ∧
      evalRuleBody rule ind closes conf0 rs0 = .ok true c rs ∧
      (evaluate_trading_rule rule ind).2.1 =
        min 1 (c + ((10 : ℚ) - rule.priority) * (1/20)) := by
  cases hd : ind.data with
  | none => rw [eval_unfold_nodata rule ind hd] at ht; simp at ht
  | some closes =>
    by_cases h0 : closes.length = 0
    · rw [eval_unfold_empty rule ind closes hd h0] at ht; simp at ht
    · cases hpd : rule.previousDays with
      | none =>
        rw [eval_unfold_nopd rule ind closes hd h0 hpd] at ht ⊢
        obtain ⟨c, rs, hb, hconf⟩ := finalize_body_true _ _ ht
        exact ⟨closes, 0, [], c, rs, rfl, h0, hb, by rw [hconf]⟩
      | some n =>
        by_cases hn : n ≤ closes.length
        · by_cases hg : ilast closes > tailMean closes n
          · rw [eval_unfold_pd_pass rule ind closes n hd h0 hpd hn hg] at ht ⊢
            obtain ⟨c, rs, hb, hconf⟩ := finalize_body_true _ _ ht
            exact ⟨closes, 1/5, [ "Price above previous days average"],
              c, rs, rfl, h0, hb, by rw [hconf]⟩
          · rw [eval_unfold_pd_veto rule ind closes n hd h0 hpd hn hg] at ht
            simp at ht
        · rw [eval_unfold_pd_skip rule ind closes n hd h0 hpd hn] at ht ⊢
          obtain ⟨c, rs, hb, hconf⟩ := finalize_body_true _ _ ht
          exact ⟨closes, 0, [], c, rs, rfl, h0, hb, by rw [hconf]⟩

/-- Last entry of a prefix of length `t + 1`. -/
theorem ilast_take (l : List ℚ) (t : ℕ) (h : t < l.length) :
    ilast (l.take (t + 1)) = l.getD t 0 := by
  unfold ilast
  rw [List.length_take, min_eq_left (by omega : t + 1 ≤ l.length)]
  simp only [Nat.add_sub_cancel]
  rw [List.getD_eq_getElem?_getD, List.getD_eq_getElem?_getD,
    List.getElem?_take, if_pos (by omega)]

/-- Second-to-last entry of a prefix of length `t + 2`. -/
theorem iprev_take (l : List ℚ) (t : ℕ) (h : t + 2 ≤ l.length) :
    iprev (l.take (t + 2)) = l.getD t 0 := by
  unfold iprev
  rw [List.length_take, min_eq_left (by omega : t + 2 ≤ l.length)]
  simp only [Nat.add_sub_cancel]
  rw [List.getD_eq_getElem?_getD, List.getD_eq_getElem?_getD,
    List.getElem?_take, if_pos (by omega)]

/-! ## C3: cross-below transitions -/

/-- C3: a cross-below rule (SMA, EMA or ATR-stop family) triggers only
when the price was strictly above its reference series on the prior bar
and is strictly below it on the current bar; consequently, evaluated on
successive prefixes of the same series, it cannot trigger on two
consecutive bars. -/
theorem crossBelow_transition_spec :
    (∀ (rule : Rule) (ind : IndicatorSet) (closes s : List ℚ),
      isCrossKind rule.kind = true → ind.data = some closes →
      ind.series (primaryKey rule) = some s →
      (evaluate_trading_rule rule ind).1 = true →
      2 ≤ closes.length ∧ 2 ≤ s.length ∧
        iprev closes > iprev s ∧ ilast closes < ilast s) ∧
    (∀ (rule : Rule) (closes : List ℚ) (series : IndKey → Option (List ℚ))
      (s : List ℚ) (t : ℕ),
      isCrossKind rule.kind = true → series (primaryKey rule) = some s →
      s.length = closes.length → t + 2 ≤ closes.length →
      (evaluate_trading_rule rule (truncInd closes series t)).1 = true →
      (evaluate_trading_rule rule (truncInd closes series (t + 1))).1 = false) := by
  have hinv : ∀ (rule : Rule) (ind : IndicatorSet) (closes s : List ℚ),
      isCrossKind rule.kind = true → ind.data = some closes →
      ind.series (primaryKey rule) = some s →
      (evaluate_trading_rule rule ind).1 = true →
      2 ≤ closes.length ∧ 2 ≤ s.length ∧
        iprev closes > iprev s ∧ ilast closes < ilast s := by
    intro rule ind closes s hk hd hs ht
    obtain ⟨closes', conf0, rs0, c, rs, hd', h0, hb, -⟩ :=
      eval_true_body rule ind ht
    have hc : closes' = closes := by
      rw [hd] at hd'
      exact (Option.some.inj hd').symm
    subst hc
    obtain ⟨hlen2, hslen, hcross⟩ :=
      evalRuleBody_true_cross rule ind closes' conf0 rs0 c rs hk hb
    have hsg : indGet ind.series (primaryKey rule) = s := by
      rw [indGet, hs]; rfl
    rw [hsg] at hslen hcross
    rw [crossedBelow, Bool.and_eq_true, decide_eq_true_eq,
      decide_eq_true_eq] at hcross
    exact ⟨hlen2, hslen, hcross.1, hcross.2⟩
  refine ⟨hinv, ?_⟩
  intro rule closes series s t hk hs hlen ht htrig
  have hser : (truncInd closes series t).series (primaryKey rule) =
      some (s.take (t + 1)) := by
    show (series (primaryKey rule)).map _ = _
    rw [hs]; rfl
  have h1 := hinv rule (truncInd closes series t) (closes.take (t + 1))
    (s.take (t + 1)) hk rfl hser htrig
  have hlt : ilast (closes.take (t + 1)) < ilast (s.take (t + 1)) := h1.2.2.2
  rw [ilast_take closes t (by omega), ilast_take s t (by omega)] at hlt
  cases hb2 : (evaluate_trading_rule rule (truncInd closes series (t + 1))).1 with
  | false => rfl
  | true =>
    exfalso
    have hser2 : (truncInd closes series (t + 1)).series (primaryKey rule) =
        some (s.take (t + 2)) := by
      show (series (primaryKey rule)).map _ = _
      rw [hs]; rfl
    have h2 := hinv rule (truncInd closes series (t + 1))
      (closes.take (t + 2)) (s.take (t + 2)) hk rfl hser2 hb2
    have hgt : iprev (closes.take (t + 2)) > iprev (s.take (t + 2)) := h2.2.2.1
    rw [iprev_take closes t (by omega), iprev_take s t (by omega)] at hgt
    linarith

/-- C3 witness: a 21-SMA cross rule on closes [10, 1, 2] against the
constant reference [5, 5, 5] triggers at bar 1 (price 10 above, then 1
below) and therefore cannot trigger again at bar 2. -/
theorem crossBelow_transition_spec_witness :
    (evaluate_trading_rule ⟨.smaCross21, 5, 21, none, -50⟩
      (truncInd [10, 1, 2]
        (fun k => if k = IndKey.sma 21 then some [5, 5, 5] else none) 1)).1 =
      true ∧
    (evaluate_trading_rule ⟨.smaCross21, 5, 21, none, -50⟩
      (truncInd [10, 1, 2]
        (fun k => if k = IndKey.sma 21 then some [5, 5, 5] else none) 2)).1 =
      false := by
  have htrig : (evaluate_trading_rule ⟨.smaCross21, 5, 21, none, -50⟩
      (truncInd [10, 1, 2]
        (fun k => if k = IndKey.sma 21 then some [5, 5, 5] else none) 1)).1 =
      true := by
    rw [eval_unfold_nopd _ _ ([10, 1] : List ℚ) rfl (by norm_num) rfl]
    norm_num [evalRuleBody, truncInd, indGet, ilast, iprev, crossedBelow,
      finalizeEval]
  refine ⟨htrig, ?_⟩
  exact crossBelow_transition_spec.2 ⟨.smaCross21, 5, 21, none, -50⟩
    [10, 1, 2] (fun k => if k = IndKey.sma 21 then some [5, 5, 5] else none)
    [5, 5, 5] 1 rfl rfl rfl (by norm_num) htrig

/-! ## C4: confidence range -/

/-- C4 counterexample: the prior-days-average veto path reports
confidence -0.3, outside [0,1] — a rule with `previous_days = 1` on the
close series [5, 5] (current price equal to, hence not above, the
trailing mean) returns a non-triggered result with negative
confidence. -/
theorem confidence_range_cex :
    (evaluate_trading_rule ⟨.otherRule, 5, 21, some 1, -50⟩
      ⟨some [5, 5], fun _ => none⟩).2.1 < 0 := by
  rw [eval_unfold_pd_veto _ _ ([5, 5] : List ℚ) 1 rfl (by norm_num) rfl
    (by norm_num) (by norm_num [ilast, tailMean])]
  norm_num

/-- C4 amended: a triggered evaluation with priority between 1 and 10
reports a confidence in [0,1] (clamped above at 1); non-triggered
results, however, can report negative confidence — the veto path
reports -0.3 (see the counterexample). -/
theorem confidence_range_amended (rule : Rule) (ind : IndicatorSet)
    (_h1 : 1 ≤ rule.priority) (h2 : rule.priority ≤ 10)
    (ht : (evaluate_trading_rule rule ind).1 = true) :
    0 ≤ (evaluate_trading_rule rule ind).2.1 ∧
      (evaluate_trading_rule rule ind).2.1 ≤ 1 := by
  obtain ⟨closes, conf0, rs0, c, rs, hd, h0, hb, hconf⟩ :=
    eval_true_body rule ind ht
  obtain ⟨hc1, hc2⟩ := evalRuleBody_true_conf rule ind closes conf0 rs0 c rs hb
  rw [hconf]
  constructor
  · apply le_min (by norm_num)
    have hp : (rule.priority : ℚ) ≤ 10 := by exact_mod_cast h2
    nlinarith
  · exact min_le_left _ _

/-- C4 witness: a triggered 21-SMA cross rule of priority 5 (clamped to
confidence 1) lies in [0,1]. -/
theorem confidence_range_amended_witness :
    (evaluate_trading_rule ⟨.smaCross21, 5, 21, none, -50⟩
      ⟨some [10, 1],
        fun k => if k = IndKey.sma 21 then some [5, 5] else none⟩).1 = true ∧
    0 ≤ (evaluate_trading_rule ⟨.smaCross21, 5, 21, none, -50⟩
      ⟨some [10, 1],
        fun k => if k = IndKey.sma 21 then some [5, 5] else none⟩).2.1 ∧
    (evaluate_trading_rule ⟨.smaCross21, 5, 21, none, -50⟩
      ⟨some [10, 1],
        fun k => if k = IndKey.sma 21 then some [5, 5] else none⟩).2.1 ≤ 1 := by
  have ht : (evaluate_trading_rule ⟨.smaCross21, 5, 21, none, -50⟩
      ⟨some [10, 1],
        fun k => if k = IndKey.sma 21 then some [5, 5] else none⟩).1 = true := by
    rw [eval_unfold_nopd _ _ ([10, 1] : List ℚ) rfl (by norm_num) rfl]
    norm_num [evalRuleBody, indGet, ilast, iprev, crossedBelow, finalizeEval]
  exact ⟨ht, confidence_range_amended _ _ (by norm_num) (by norm_num) ht⟩

/-! ## C8: per-rule failure isolation -/

/-- C8 counterexample: a breadth rule with a positive threshold (10) and
the breadth indicator absent from the computed set is not skipped — the
absent series defaults to the constant zero, which is below the
threshold, so the rule triggers. -/
theorem rule_isolation_cex :
    (evaluate_trading_rule ⟨.nymoRule, 5, 21, none, 10⟩
      ⟨some [1], fun _ => none⟩).1 = true := by
  rw [eval_unfold_nopd _ _ ([1] : List ℚ) rfl (by norm_num) rfl]
  norm_num [evalRuleBody, indGet, ilast, finalizeEval]

/-- C8 amended: an internal failure (missing data key) yields the error
result `(false, 0, error text)` for that rule; a cross rule whose
reference indicator is absent is non-triggered, and a breadth rule with
absent indicator is non-triggered provided its threshold is nonpositive
(with a positive threshold it would trigger on the zero default, see the
counterexample); a rule that contributes no signal never affects the
signal list produced for the remaining rules. -/
theorem rule_isolation_amended :
    (∀ (rule : Rule) (ind : IndicatorSet), ind.data = none →
      evaluate_trading_rule rule ind = (false, 0, [ "Error"])) ∧
    (∀ (rule : Rule) (ind : IndicatorSet) (closes : List ℚ),
      ind.data = some closes → isCrossKind rule.kind = true →
      ind.series (primaryKey rule) = none →
      (evaluate_trading_rule rule ind).1 = false) ∧
    (∀ (rule : Rule) (ind : IndicatorSet) (closes : List ℚ),
      ind.data = some closes → rule.kind = .nymoRule →
      ind.series .nymo = none → rule.nymoThreshold ≤ 0 →
      (evaluate_trading_rule rule ind).1 = false) ∧
    (∀ (indFor : Rule → Option IndicatorSet) (pre post : List Rule)
      (rule : Rule), ruleSignal indFor rule = none →
      evaluate_all_rules_for_ticker indFor (pre ++ rule :: post) =
        evaluate_all_rules_for_ticker indFor (pre ++ post)) ∧
    (∀ (indFor : Rule → Option IndicatorSet) (rule : Rule)
      (ind : IndicatorSet), indFor rule = some ind →
      (evaluate_trading_rule rule ind).1 = false →
      ruleSignal indFor rule = none) := by
  have hbody_false : ∀ (rule : Rule) (ind : IndicatorSet) (closes : List ℚ),
      ind.data = some closes →
      (∀ conf0 rs0, evalRuleBody rule ind closes conf0 rs0 =
        .ok false conf0 rs0) →
      (evaluate_trading_rule rule ind).1 = false := by
    intro rule ind closes hd hbody
    by_cases h0 : closes.length = 0
    · rw [eval_unfold_empty rule ind closes hd h0]
    · cases hpd : rule.previousDays with
      | none =>
        rw [eval_unfold_nopd rule ind closes hd h0 hpd, hbody]
        simp [finalizeEval]
      | some n =>
        by_cases hn : n ≤ closes.length
        · by_cases hg : ilast closes > tailMean closes n
          · rw [eval_unfold_pd_pass rule ind closes n hd h0 hpd hn hg, hbody]
            simp [finalizeEval]
          · rw [eval_unfold_pd_veto rule ind closes n hd h0 hpd hn hg]
        · rw [eval_unfold_pd_skip rule ind closes n hd h0 hpd hn, hbody]
          simp [finalizeEval]
  refine ⟨?_, ?_, ?_, ?_, ?_⟩
  · intro rule ind hd
    exact eval_unfold_nodata rule ind hd
  · intro rule ind closes hd hk hs
    exact hbody_false rule ind closes hd
      (fun conf0 rs0 => evalRuleBody_absent rule ind closes conf0 rs0 hk hs)
  · intro rule ind closes hd hkind hs hth
    exact hbody_false rule ind closes hd
      (fun conf0 rs0 =>
        evalRuleBody_nymo_absent rule ind closes conf0 rs0 hkind hs hth)
  · intro indFor pre post rule h
    unfold evaluate_all_rules_for_ticker
    rw [List.filterMap_append, List.filterMap_cons_none h,
      ← List.filterMap_append]
  · intro indFor rule ind hind hfalse
    unfold ruleSignal
    rw [hind]
    simp [hfalse]

/-- C8 witness: the error result on a missing data key, and removal of a
signal-less rule leaving the (empty) signal list unchanged. -/
theorem rule_isolation_amended_witness :
    evaluate_trading_rule ⟨.smaCross21, 5, 21, none, -50⟩
      ⟨none, fun _ => none⟩ = (false, 0, [ "Error"]) ∧
    evaluate_all_rules_for_ticker (fun _ => none)
        ([] ++ ⟨.smaCross21, 5, 21, none, -50⟩ :: []) =
      evaluate_all_rules_for_ticker (fun _ => none) ([] ++ []) := by
  constructor
  · exact rule_isolation_amended.1 ⟨.smaCross21, 5, 21, none, -50⟩
      ⟨none, fun _ => none⟩ rfl
  · exact rule_isolation_amended.2.2.2.1 (fun _ => none) [] []
      ⟨.smaCross21, 5, 21, none, -50⟩ rfl

end TradingBot
